import Mathlib

/-!
Verification of the DeepChat Sublime Text plugin (`chat.py`) against its
natural-language specification.  The definitions below are a shallow
embedding of the streaming-response assembler, the retry dispatcher, the
stream watchdog, the tool-call key/value parser, session persistence and
the conversation-history operations of `chat.py`.  Bytes are modelled as
natural numbers below 256, Python `str` as Lean `String`, Python dict /
JSON documents as an inductive `Json` type, and the relevant Python
standard-library routines (`bytes.split`, `str.strip`, `json.loads`,
`re.findall` for the one fixed pattern the code uses) as executable Lean
functions.
-/

namespace DeepChat

/-- A byte of a network chunk (`bytes` in Python); values are < 256. -/
abbrev Byte := Nat

/-- A byte string (Python `bytes`). -/
abbrev ByteStr := List Byte

/-! ### String helpers modelling Python primitives

`String` operations are implemented over the underlying character list so
that every definition reduces inside the kernel. -/

/-- Python considers these six ASCII characters whitespace for `strip()`. -/
def isWsChar (c : Char) : Bool :=
  c = ' ' || c = '\t' || c = '\n' || c = '\r' || c = '\x0b' || c = '\x0c'

/-- Models `str.strip()` on the character list. -/
def trimChars (cs : List Char) : List Char :=
  ((cs.dropWhile isWsChar).reverse.dropWhile isWsChar).reverse

/-- Models `str.strip()`. -/
def pyStrip (s : String) : String := ⟨trimChars s.data⟩

/-- Models `a.startswith(b)` on character lists. -/
def leadsWith : List Char → List Char → Bool
  | _, [] => true
  | [], _ :: _ => false
  | c :: cs, d :: ds => c = d && leadsWith cs ds

/-- Models `a.startswith(b)` for strings. -/
def strLeads (s pre : String) : Bool := leadsWith s.data pre.data

/-- Models `s[n:]` — drop the first `n` characters. -/
def strDrop (s : String) (n : Nat) : String := ⟨s.data.drop n⟩

/-- Models `sub in s` — substring containment test. -/
def containsSub (s sub : String) : Bool :=
  let rec go : List Char → Bool
    | [] => leadsWith [] sub.data
    | c :: cs => leadsWith (c :: cs) sub.data || go cs
  go s.data

/-- Models `'\n'.join(ls)`. -/
def joinNL : List String → String
  | [] => ""
  | [x] => x
  | x :: y :: t => x ++ "\n" ++ joinNL (y :: t)

/-- Whitespace bytes for `bytes.strip()`: space, tab, newline, CR, VT, FF. -/
def isWsByte (b : Byte) : Bool :=
  b = 32 || b = 9 || b = 10 || b = 13 || b = 11 || b = 12

/-- Models `not line.strip()` for a byte string: true iff every byte is whitespace. -/
def blankBytes (l : ByteStr) : Bool := l.all isWsByte

/-- Models `line.decode('utf-8', errors='replace')`.  Bytes relevant to the SSE
protocol are ASCII and decode to themselves; any byte ≥ 0x80 is modelled as
the replacement character (full multi-byte UTF-8 decoding is orthogonal to
the claims: lines are reassembled from the byte buffer before decoding, so
no decode ever straddles a chunk boundary). -/
def decodeByte (b : Byte) : Char :=
  if b < 128 then Char.ofNat b else '�'

/-- Decode a whole byte line to a string. -/
def decodeBytes (l : ByteStr) : String := ⟨l.map decodeByte⟩

/-! ### Splitting the parse buffer on newlines

`_process_buffer` runs `lines = self.parse_buffer.split(b'\n')` and then
`self.parse_buffer = lines.pop()`.  `chop` returns exactly that pair: the
complete lines (everything before each `\n`) and the trailing segment after
the last `\n` (the new parse buffer). -/

/-- Split a byte string at every newline byte: `(complete lines, trailing
segment)`.  `chop l = (init of l.split(10), last of l.split(10))`. -/
def chop : ByteStr → List ByteStr × ByteStr
  | [] => ([], [])
  | 10 :: r => ([] :: (chop r).1, (chop r).2)
  | c :: r =>
    match chop r with
    | ([], t) => ([], c :: t)
    | (l :: ls, t) => ((c :: l) :: ls, t)

theorem chop_nil : chop [] = ([], []) := rfl

/-- The trailing segment returned by `chop` never contains a newline. -/
theorem chop_tail_no_nl : ∀ l : ByteStr, 10 ∉ (chop l).2 := by
  intro l
  induction l with
  | nil => simp [chop]
  | cons c r ih =>
    by_cases hc : c = 10
    · subst hc; simpa [chop] using ih
    · rcases hr : chop r with ⟨ls, t⟩
      rw [hr] at ih
      cases ls with
      | nil =>
        simp only [chop, hc, hr]
        intro hm
        rcases List.mem_cons.mp hm with h | h
        · exact hc h.symm
        · exact ih h
      | cons l0 ls' =>
        simp only [chop, hc, hr]
        exact ih

/-- If a byte string has no newline, `chop` keeps it whole as the tail. -/
theorem chop_no_nl {l : ByteStr} (h : 10 ∉ l) : chop l = ([], l) := by
  induction l with
  | nil => rfl
  | cons c r ih =>
    have hc : c ≠ 10 := by intro hc; exact h (by simp [hc])
    have hr : 10 ∉ r := fun hm => h (List.mem_cons_of_mem _ hm)
    simp only [chop, hc, ih hr]

/-- How `chop` decomposes over concatenation: the complete lines of `a ++ b`
are the complete lines of `a`, then (if `b` holds at least one newline) the
line formed by `a`'s tail glued to `b`'s first line, then the rest of `b`'s
lines; the final tail is `b`'s tail (or `a`'s tail extended, when `b` holds
no newline). -/
theorem chop_append (a b : ByteStr) :
    chop (a ++ b) =
      match (chop b).1 with
      | [] => ((chop a).1, (chop a).2 ++ (chop b).2)
      | h :: t => ((chop a).1 ++ ((chop a).2 ++ h) :: t, (chop b).2) := by
  induction a with
  | nil =>
    rcases hb : chop b with ⟨lb, tb⟩
    cases lb <;> simp [chop, hb]
  | cons c a' ih =>
    rcases hb : chop b with ⟨lb, tb⟩
    rcases ha : chop a' with ⟨la, ta⟩
    rw [hb, ha] at ih
    by_cases hc : c = 10
    · subst hc
      cases lb <;> simp_all [chop]
    · cases lb <;> cases la <;> simp_all [chop]

/-! ### JSON documents

Python values produced by `json.loads`.  Numeric literals are modelled as
integers (the payload fields the program reads are strings; floating-point
numbers are out of scope). -/

inductive Json where
  | null
  | bool (b : Bool)
  | num (n : Int)
  | str (s : String)
  | arr (elems : List Json)
  | obj (fields : List (String × Json))

/-- Dictionary lookup `d[k]` / `d.get(k)`; on duplicate keys `json.loads`
keeps the last occurrence, hence the left fold. -/
def getKey (j : Json) (k : String) : Option Json :=
  match j with
  | .obj fields => fields.foldl (fun acc p => if p.1 = k then some p.2 else acc) none
  | _ => none

/-- Models `k in d` for a JSON object. -/
def hasKey (j : Json) (k : String) : Bool := (getKey j k).isSome

/-! ### `json.loads`, as an executable recursive-descent routine -/

/-- Skip JSON whitespace (space, tab, newline, carriage return). -/
def skipWs : List Char → List Char
  | [] => []
  | c :: r => if c = ' ' || c = '\t' || c = '\n' || c = '\r' then skipWs r else c :: r

/-- One JSON string escape character. -/
def escChar (e : Char) : Option Char :=
  if e = '"' then some '"'
  else if e = '\\' then some '\\'
  else if e = '/' then some '/'
  else if e = 'b' then some '\x08'
  else if e = 'f' then some '\x0c'
  else if e = 'n' then some '\n'
  else if e = 'r' then some '\r'
  else if e = 't' then some '\t'
  else none

/-- Hexadecimal digit value. -/
def hexDigit (c : Char) : Option Nat :=
  if '0' ≤ c ∧ c ≤ '9' then some (c.toNat - 48)
  else if 'a' ≤ c ∧ c ≤ 'f' then some (c.toNat - 87)
  else if 'A' ≤ c ∧ c ≤ 'F' then some (c.toNat - 55)
  else none

/-- Body of a JSON string literal after the opening quote: returns the
decoded characters and the input after the closing quote.  Unescaped
control characters are rejected as in `json.loads` strict mode. -/
def strBody : List Char → Option (List Char × List Char)
  | [] => none
  | '"' :: r => some ([], r)
  | '\\' :: 'u' :: h1 :: h2 :: h3 :: h4 :: r => do
    let n1 ← hexDigit h1
    let n2 ← hexDigit h2
    let n3 ← hexDigit h3
    let n4 ← hexDigit h4
    let (cs, rest) ← strBody r
    pure (Char.ofNat (n1 * 4096 + n2 * 256 + n3 * 16 + n4) :: cs, rest)
  | '\\' :: e :: r => do
    let ec ← escChar e
    let (cs, rest) ← strBody r
    pure (ec :: cs, rest)
  | c :: r =>
    if c.toNat < 32 then none
    else (strBody r).map fun p => (c :: p.1, p.2)

/-- Consume a run of decimal digits, accumulating their value. -/
def digitsVal : List Char → Nat → Nat × List Char
  | [], acc => (acc, [])
  | c :: r, acc =>
    if c.isDigit then digitsVal r (acc * 10 + (c.toNat - 48)) else (acc, c :: r)

mutual

/-- Parse one JSON value (fuel-indexed recursive descent). -/
def parseV : Nat → List Char → Option (Json × List Char)
  | 0, _ => none
  | f + 1, cs =>
    match skipWs cs with
    | '{' :: r =>
      (match skipWs r with
       | '}' :: r2 => some (.obj [], r2)
       | r2 => parseMembers f r2 [])
    | '[' :: r =>
      (match skipWs r with
       | ']' :: r2 => some (.arr [], r2)
       | r2 => parseElems f r2 [])
    | '"' :: r => (strBody r).map fun p => (.str ⟨p.1⟩, p.2)
    | 't' :: 'r' :: 'u' :: 'e' :: r => some (.bool true, r)
    | 'f' :: 'a' :: 'l' :: 's' :: 'e' :: r => some (.bool false, r)
    | 'n' :: 'u' :: 'l' :: 'l' :: r => some (.null, r)
    | '-' :: c :: r =>
      if c.isDigit then
        let p := digitsVal r (c.toNat - 48)
        some (.num (-(p.1 : Int)), p.2)
      else none
    | c :: r =>
      if c.isDigit then
        let p := digitsVal r (c.toNat - 48)
        some (.num (p.1 : Int), p.2)
      else none
    | [] => none

/-- Parse the members of a JSON object after its opening brace. -/
def parseMembers : Nat → List Char → List (String × Json) →
    Option (Json × List Char)
  | 0, _, _ => none
  | f + 1, cs, acc =>
    match skipWs cs with
    | '"' :: r =>
      match strBody r with
      | none => none
      | some (kcs, r2) =>
        match skipWs r2 with
        | ':' :: r3 =>
          match parseV f r3 with
          | none => none
          | some (v, r4) =>
            match skipWs r4 with
            | ',' :: r5 => parseMembers f r5 (acc ++ [(⟨kcs⟩, v)])
            | '}' :: r5 => some (.obj (acc ++ [(⟨kcs⟩, v)]), r5)
            | _ => none
        | _ => none
    | _ => none

/-- Parse the elements of a JSON array after its opening bracket. -/
def parseElems : Nat → List Char → List Json → Option (Json × List Char)
  | 0, _, _ => none
  | f + 1, cs, acc =>
    match parseV f cs with
    | none => none
    | some (v, r) =>
      match skipWs r with
      | ',' :: r2 => parseElems f r2 (acc ++ [v])
      | ']' :: r2 => some (.arr (acc ++ [v]), r2)
      | _ => none

end

/-- Models `json.loads(s)`: parse a complete JSON document, requiring only
whitespace after the value.  `none` models a raised `ValueError`. -/
def jsonLoads (s : String) : Option Json :=
  match parseV (s.data.length + 1) s.data with
  | some (v, rest) => if skipWs rest = [] then some v else none
  | none => none

/-! ### `_extract_content`

The extractor mutates `self.reply` under the content lock.  Its effect is
one of: append a string, do nothing, or raise (`TypeError` from `+=` on a
non-string, or from Python `in`/indexing on a value of the wrong shape). -/

/-- Result of one `_extract_content` invocation. -/
inductive ExtractOut where
  | app (s : String)
  | noop
  | err
deriving DecidableEq, Repr

/-- Models `reply += v` for a field value already known non-null: appends when the
value is a string; a non-string raises `TypeError`. -/
def appendVal : Json → ExtractOut
  | .str s => .app s
  | _ => .err

/-- Python `'k' in v` where `v` is a list: membership of the string. -/
def memStr (l : List Json) (k : String) : Bool :=
  l.any fun j => match j with | .str s => s = k | _ => false

/-- Models `if 'content' in x and x['content'] is not None: reply += x['content']`,
where `x` is the value of `choice['delta']` or `choice['message']`.  On a
non-dict `x`, Python `in` is substring/membership for str/list and raises
`TypeError` otherwise; indexing a str/list with `'content'` raises. -/
def fieldContent : Json → ExtractOut
  | .obj fs =>
    (match getKey (.obj fs) "content" with
     | some .null => .noop
     | some v => appendVal v
     | none => .noop)
  | .str s => if containsSub s "content" then .err else .noop
  | .arr l => if memStr l "content" then .err else .noop
  | _ => .err

/-- The `choice = choices[0]` branch ladder: presence of `'delta'` commits
to the delta shape, else presence of `'message'` commits, else a present
non-null `'text'` is appended.  A non-dict choice degenerates as Python
`in`/`.get` do (a str choice here is a single character, so no key test
can match). -/
def choiceExtract : Json → ExtractOut
  | .obj fs =>
    let c := Json.obj fs
    if hasKey c "delta" then fieldContent ((getKey c "delta").getD (.obj []))
    else if hasKey c "message" then fieldContent ((getKey c "message").getD (.obj []))
    else
      (match getKey c "text" with
       | some .null => .noop
       | some v => appendVal v
       | none => .noop)
  | .str s =>
    if containsSub s "delta" || containsSub s "message" || containsSub s "text"
    then .err else .noop
  | .arr l =>
    if memStr l "delta" || memStr l "message" || memStr l "text"
    then .err else .noop
  | _ => .err

/-- Dispatch on the value of `data['choices']`: `if choices and
len(choices) > 0` skips falsy values; `len`/indexing raise on the rest. -/
def choicesExtract : Json → ExtractOut
  | .arr [] => .noop
  | .arr (c :: _) => choiceExtract c
  | .null => .noop
  | .bool false => .noop
  | .bool true => .err
  | .num n => if n = 0 then .noop else .err
  | .str _ => .noop
  | .obj [] => .noop
  | .obj _ => .err

/-- Present-and-non-null test used by the top-level `elif` ladder. -/
def topField (d : Json) (k : String) : Option Json :=
  match getKey d k with
  | some .null => none
  | some v => some v
  | none => none

/-- The top-level ladder `text` → `content` → `completion` → `response`:
a present-but-null field falls through to the next alternative. -/
def topChain (d : Json) : ExtractOut :=
  match topField d "text" with
  | some v => appendVal v
  | none =>
    match topField d "content" with
    | some v => appendVal v
    | none =>
      match topField d "completion" with
      | some v => appendVal v
      | none =>
        match topField d "response" with
        | some v => appendVal v
        | none => .noop

/-- Models `_extract_content`: the presence of a `'choices'` key commits to the
choices branch (no fall-through to the top-level ladder); otherwise the
top-level ladder runs.  Non-dict payloads degenerate as Python `in` does. -/
def extractContent (data : Json) : ExtractOut :=
  match data with
  | .obj _ =>
    if hasKey data "choices" then choicesExtract ((getKey data "choices").getD (.arr []))
    else topChain data
  | .str s =>
    if containsSub s "choices" || containsSub s "text" || containsSub s "content"
       || containsSub s "completion" || containsSub s "response"
    then .err else .noop
  | .arr l =>
    if memStr l "choices" || memStr l "text" || memStr l "content"
       || memStr l "completion" || memStr l "response"
    then .err else .noop
  | _ => .err

/-! ### Partial-JSON recovery (`_process_partial_json`)

The rolling buffer is scanned with the fixed balanced-brace pattern
`(\{(?:[^{}]|(?:\{(?:[^{}]|(?:\{[^{}]*\}))*\}))*\})` — braces nested at
most three deep.  Matching is deterministic: inside a group, a non-brace
character is consumed directly, an opening brace must start a complete
nested group one level deeper, and a closing brace ends the group. -/

/-- Match the body of a brace group after its opening brace; `lvl` is the
number of still-deeper nesting levels the pattern allows.  Returns the body
including the closing brace, and the rest of the input. -/
def balBody : Nat → Nat → List Char → Option (List Char × List Char)
  | 0, _, _ => none
  | _ + 1, _, [] => none
  | f + 1, lvl, c :: rest =>
    if c = '}' then some ([c], rest)
    else if c = '{' then
      match lvl with
      | 0 => none
      | lvl' + 1 =>
        match balBody f lvl' rest with
        | none => none
        | some (inner, rest2) =>
          match balBody f (lvl' + 1) rest2 with
          | none => none
          | some (tl, rest3) => some (c :: (inner ++ tl), rest3)
    else
      match balBody f lvl rest with
      | none => none
      | some (tl, rest2) => some (c :: tl, rest2)

/-- Models `re.findall` of the balanced-brace pattern: scan left to right; each
match is recorded and scanning resumes after it (non-overlapping). -/
def findBraced : Nat → List Char → List String
  | 0, _ => []
  | _ + 1, [] => []
  | f + 1, c :: rest =>
    if c = '{' then
      match balBody (rest.length + 1) 2 rest with
      | some (body, rest2) => (⟨c :: body⟩ : String) :: findBraced f rest2
      | none => findBraced f rest
    else findBraced f rest

/-- All pattern matches in the buffer. -/
def findAllBraced (s : String) : List String :=
  findBraced (s.data.length + 1) s.data

/-- Models `s.replace(sub, '', 1)` for a nonempty `sub`: delete the first
occurrence, if any. -/
def replFirstChars (sub : List Char) : List Char → List Char
  | [] => []
  | c :: cs =>
    if leadsWith (c :: cs) sub then (c :: cs).drop sub.length
    else c :: replFirstChars sub cs

/-- Models `s.replace(sub, '', 1)`. -/
def replFirst (s sub : String) : String := ⟨replFirstChars sub.data s.data⟩

/-! ### The line/buffer pipeline

`_process_line` and everything below it only mutate `self.reply` and
`self.partial_json`; we thread that pair (`RP`) explicitly. -/

/-- Walk the matches found in the rolling buffer: each parseable match is
routed through `_extract_content` exactly once and its first occurrence is
removed from the buffer; an unparseable match is left for a later pass; a
`TypeError` raised inside extraction aborts the walk (the exception
propagates to the caller), leaving the state as mutated so far. -/
def pjScan : List String → String × String → String × String
  | [], rp => rp
  | m :: ms, (r, p) =>
    match jsonLoads m with
    | none => pjScan ms (r, p)
    | some j =>
      match extractContent j with
      | .app s => pjScan ms (r ++ s, replFirst p m)
      | .noop => pjScan ms (r, replFirst p m)
      | .err => (r, p)

/-- Models `_process_partial_json` on the `(reply, partial-JSON buffer)` pair. -/
def pendingScanRP (rp : String × String) : String × String :=
  if rp.2 = "" then rp else pjScan (findAllBraced rp.2) rp

/-- Models `_handle_json_content`: parse the text as JSON and extract; on a
`ValueError` append the text to the rolling buffer and rescan it.  A
`TypeError` from extraction propagates to `_process_line`, which swallows
it before any mutation took effect. -/
def handleJsonRP (rp : String × String) (jsonStr : String) : String × String :=
  match jsonLoads jsonStr with
  | some j =>
    match extractContent j with
    | .app s => (rp.1 ++ s, rp.2)
    | .noop => rp
    | .err => rp
  | none => pendingScanRP (rp.1, rp.2 ++ jsonStr)

/-- Models `_process_line`: skip blank lines; decode and strip; strip the SSE
`data: ` framing, treating a literal `data: [DONE]` as a no-op sentinel;
lines opening a JSON object are routed to `_handle_json_content`; anything
else is ignored. -/
def lineRP (rp : String × String) (line : ByteStr) : String × String :=
  if blankBytes line then rp
  else
    let s := pyStrip (decodeBytes line)
    if strLeads s "data: " then
      if s = "data: [DONE]" then rp
      else handleJsonRP rp (strDrop s 6)
    else if strLeads s "\x7b" then handleJsonRP rp s
    else rp

/-- Stream-assembler state: `self.reply`, `self.parse_buffer`,
`self.partial_json`. -/
structure SState where
  reply : String
  buf : ByteStr
  pendingJson : String
deriving DecidableEq, Repr

/-- Models `_process_line` on the assembler state (`parse_buffer` untouched). -/
def processLine (st : SState) (line : ByteStr) : SState :=
  let rp := lineRP (st.reply, st.pendingJson) line
  { st with reply := rp.1, pendingJson := rp.2 }

/-- Process a list of complete lines in order. -/
def processLines (st : SState) (ls : List ByteStr) : SState :=
  ls.foldl processLine st

/-- Models `_process_buffer`: split the parse buffer on newlines, retain the last
(possibly incomplete) segment as the new parse buffer and process each
complete line; at end of stream (`final`) a leftover newline-free buffer is
processed as one last line. -/
def processBuffer (final : Bool) (st : SState) : SState :=
  if 10 ∈ st.buf then
    let p := chop st.buf
    { processLines st p.1 with buf := p.2 }
  else if final && !st.buf.isEmpty then
    { processLine st st.buf with buf := [] }
  else st

/-- Models `_process_partial_json` on the assembler state. -/
def pendingFlush (st : SState) : SState :=
  let rp := pendingScanRP (st.reply, st.pendingJson)
  { st with reply := rp.1, pendingJson := rp.2 }

/-- Fresh per-request state (`setup_streaming` / loop entry). -/
def sInit : SState := { reply := "", buf := [], pendingJson := "" }

/-- One read-loop iteration body with a nonempty chunk: append the chunk to
the parse buffer and process complete lines. -/
def feedChunk (st : SState) (c : ByteStr) : SState :=
  processBuffer false { st with buf := st.buf ++ c }

/-- The read loop of `_stream_response_sync` over the chunks actually read:
each chunk is fed through `_process_buffer`; if the stream closes (a read
returns no data) the buffer is flushed with `final=True`; if instead the
cancellation flag stops the loop, that final flush is skipped.  Either way
`_process_partial_json` then runs once more. -/
def runStream (chunks : List ByteStr) (stopped : Bool) : SState :=
  let st := chunks.foldl feedChunk sInit
  let st2 := if stopped then st else processBuffer true st
  pendingFlush st2

/-! ### Chunk-split invariance of the assembler (claim C1) -/

theorem processLine_buf (st : SState) (l : ByteStr) :
    (processLine st l).buf = st.buf := rfl

theorem processLine_setBuf (w : SState) (u : ByteStr) (l : ByteStr) :
    processLine { w with buf := u } l = { processLine w l with buf := u } := rfl

theorem processLines_setBuf (ls : List ByteStr) (w : SState) (u : ByteStr) :
    processLines { w with buf := u } ls = { processLines w ls with buf := u } := by
  induction ls generalizing w with
  | nil => rfl
  | cons l ls ih =>
    simp only [processLines, List.foldl_cons] at *
    rw [processLine_setBuf, ih]

theorem processLines_append (st : SState) (l1 l2 : List ByteStr) :
    processLines st (l1 ++ l2) = processLines (processLines st l1) l2 :=
  List.foldl_append _ _ _ _

/-- Without `final`, `_process_buffer` processes exactly the complete lines
of the buffer and retains the trailing segment, whether or not the buffer
holds a newline. -/
theorem processBuffer_false (st : SState) :
    processBuffer false st =
      { processLines st (chop st.buf).1 with buf := (chop st.buf).2 } := by
  by_cases h : 10 ∈ st.buf
  · simp [processBuffer, h]
  · simp [processBuffer, h, chop_no_nl h, processLines]

theorem feedChunk_eq (st : SState) (c : ByteStr) :
    feedChunk st c =
      { processLines st (chop (st.buf ++ c)).1 with buf := (chop (st.buf ++ c)).2 } := by
  rw [feedChunk, processBuffer_false]
  rw [processLines_setBuf]

/-- Feeding two chunks one after the other equals feeding their
concatenation: the complete lines extracted, and the retained trailing
segment, are the same either way. -/
theorem feedChunk_append (st : SState) (a b : ByteStr) :
    feedChunk (feedChunk st a) b = feedChunk st (a ++ b) := by
  rw [feedChunk_eq st a, feedChunk_eq, feedChunk_eq st (a ++ b)]
  have htail := chop_tail_no_nl (st.buf ++ a)
  have hchop2 := chop_append (chop (st.buf ++ a)).2 b
  rw [chop_no_nl htail] at hchop2
  have hchop := chop_append (st.buf ++ a) b
  rw [List.append_assoc] at hchop
  rcases hb : (chop b).1 with _ | ⟨h, t⟩
  · rw [hb] at hchop hchop2
    simp only at hchop hchop2
    rw [processLines_setBuf]
    simp [hchop, hchop2, processLines]
  · rw [hb] at hchop hchop2
    simp only at hchop hchop2
    rw [processLines_setBuf]
    simp [hchop, hchop2, processLines_append]

/-- Folding the read loop over a nonempty chunk list equals one feed of the
concatenated payload. -/
theorem foldl_feedChunk (cs : List ByteStr) (c : ByteStr) (st : SState) :
    List.foldl feedChunk st (c :: cs) = feedChunk st (c ++ cs.flatten) := by
  induction cs generalizing c st with
  | nil => simp [List.foldl]
  | cons d ds ih =>
    have : List.foldl feedChunk st (c :: d :: ds) =
        List.foldl feedChunk (feedChunk st c) (d :: ds) := rfl
    rw [this, ih, feedChunk_append]
    simp

/-- Claim C1: for every payload and every way of splitting it into chunks
at arbitrary byte boundaries (including splits inside a `data: ` frame
marker or inside a JSON object), feeding the chunks one at a time through
the streaming assembler — appending each to the parse buffer, processing
complete lines, then performing the end-of-stream flush — yields the same
final reply as feeding the whole payload as a single chunk. -/
theorem C1_chunk_split_invariance (chunks : List ByteStr) :
    (runStream chunks false).reply = (runStream [chunks.flatten] false).reply := by
  cases chunks with
  | nil => rfl
  | cons c cs =>
    unfold runStream
    rw [foldl_feedChunk]
    simp [List.foldl, List.flatten]

/-! ### Finalization triggers (claims C5 and C9) -/

/-- ASCII text encoded as a byte string (`str.encode('utf-8')` for the
ASCII payloads the protocol uses). -/
def strBytes (s : String) : ByteStr := s.data.map Char.toNat

/-- A chunk whose trailing line is incomplete (no newline yet). -/
def c5Chunk : ByteStr := strBytes "data: \x7b\"text\": \"A\"\x7d"

/-- Counterexample to claim C5 as stated: when the cancellation flag stops
the read loop, `_stream_response_sync` skips `_process_buffer(final=True)`
and only runs `_process_partial_json`, so a buffered incomplete trailing
line is never flushed — unlike the stream-closed trigger, which flushes it.
On the same received bytes the two triggers produce different replies. -/
theorem C5_cancel_counterexample :
    (runStream [c5Chunk] true).reply = "" ∧
    (runStream [c5Chunk] false).reply = "A" ∧
    ("" : String) ≠ "A" :=
  ⟨rfl, rfl, by decide⟩

/-- Claim C5 amended: a stream-closed finalization flushes the buffered
trailing line and then the residual partial-JSON buffer, while a
cancellation finalization flushes only the residual partial-JSON buffer;
the two triggers coincide exactly when no incomplete trailing line is
buffered at the moment the loop exits. -/
theorem C5_finalization (chunks : List ByteStr) :
    runStream chunks true = pendingFlush (chunks.foldl feedChunk sInit) ∧
    ((chunks.foldl feedChunk sInit).buf = [] →
      runStream chunks true = runStream chunks false) := by
  refine ⟨rfl, fun h => ?_⟩
  unfold runStream
  have hpb : processBuffer true (chunks.foldl feedChunk sInit) =
      chunks.foldl feedChunk sInit := by
    rw [processBuffer]
    simp [h]
  simp [hpb]

/-- Witness for C5: a newline-terminated payload leaves the parse buffer
empty, and then cancellation and stream close agree. -/
theorem C5_finalization_witness :
    runStream [strBytes "data: \x7b\"text\": \"A\"\x7d\n"] true =
      runStream [strBytes "data: \x7b\"text\": \"A\"\x7d\n"] false :=
  (C5_finalization [strBytes "data: \x7b\"text\": \"A\"\x7d\n"]).2 rfl

/-- Claim C9: processing the exact line `data: [DONE]` leaves the reply,
the partial-JSON buffer and the parse buffer unchanged, and raises no
error (the sentinel returns before any JSON handling). -/
theorem C9_done_sentinel (st : SState) :
    processLine st (strBytes "data: [DONE]") = st := rfl

/-! ### Extraction priority (claim C3) -/

/-- Keep a field value only when it is present and non-null. -/
def nonNull : Option Json → Option Json
  | some .null => none
  | o => o

/-- First defined alternative of a priority list. -/
def firstSome : List (Option Json) → Option Json
  | [] => none
  | o :: t =>
    match o with
    | some v => some v
    | none => firstSome t

/-- Models `choices[0]`, when the `choices` field is a nonempty array. -/
def choice0 (d : Json) : Option Json :=
  match getKey d "choices" with
  | some (.arr (c :: _)) => some c
  | _ => none

/-- Modelled from the claim's words: the seven response shapes tried as one
fixed priority list, the first present-and-non-null field winning. -/
def claimPriority (d : Json) : Option Json :=
  firstSome
    [ nonNull (((choice0 d).bind (getKey · "delta")).bind (getKey · "content")),
      nonNull (((choice0 d).bind (getKey · "message")).bind (getKey · "content")),
      nonNull ((choice0 d).bind (getKey · "text")),
      nonNull (getKey d "text"),
      nonNull (getKey d "content"),
      nonNull (getKey d "completion"),
      nonNull (getKey d "response") ]

/-- Effect of appending a selected field value: a string is appended, a
non-string raises, no selection leaves the reply unchanged. -/
def selOut : Option Json → ExtractOut
  | some (.str s) => .app s
  | some _ => .err
  | none => .noop

/-- The top-level four-shape priority list (no `choices` key present). -/
def topFour (d : Json) : Option Json :=
  match nonNull (getKey d "text") with
  | some v => some v
  | none =>
    match nonNull (getKey d "content") with
    | some v => some v
    | none =>
      match nonNull (getKey d "completion") with
      | some v => some v
      | none => nonNull (getKey d "response")

/-- An object that refutes the single-priority-list reading: `choices` is
present but empty, and a top-level `text` field is present and non-null. -/
def c3Cex : Json := Json.obj [("choices", Json.arr []), ("text", Json.str "X")]

/-- Counterexample to claim C3 as stated: on `{"choices": [], "text": "X"}`
the claimed priority list selects the top-level `text` value `"X"`, but the
code's `elif` ladder commits to the `choices` branch as soon as the key is
present and appends nothing. -/
theorem C3_priority_counterexample :
    claimPriority c3Cex = some (Json.str "X") ∧
    extractContent c3Cex = ExtractOut.noop ∧
    ExtractOut.noop ≠ ExtractOut.app "X" :=
  ⟨rfl, rfl, by decide⟩

/-- Claim C3 amended: (1) when no `choices` key is present, the top-level
ladder text → content → completion → response follows the claimed
first-present-non-null priority (a present-but-null field falls through),
the winner's string value being appended, a non-string winner raising, and
no winner leaving the reply unchanged; (2) a present `choices` key commits:
the result is a function of the `choices` value alone, with no fall-through
to the top-level shapes; (3) within `choices[0]`, a present `delta` key
commits to the delta shape: when `delta.content` is null or absent nothing
is appended, even if a `message.content` or `text` sibling holds a string. -/
theorem C3_extract_amended (fields cfs dfs : List (String × Json)) :
    (¬ hasKey (Json.obj fields) "choices" →
      extractContent (Json.obj fields) = selOut (topFour (Json.obj fields))) ∧
    (∀ v, getKey (Json.obj fields) "choices" = some v →
      extractContent (Json.obj fields) = choicesExtract v) ∧
    (getKey (Json.obj cfs) "delta" = some (Json.obj dfs) →
      nonNull (getKey (Json.obj dfs) "content") = none →
      choiceExtract (Json.obj cfs) = ExtractOut.noop) := by
  refine ⟨fun hnc => ?_, fun v hv => ?_, fun hd hc => ?_⟩
  · have hnb : hasKey (Json.obj fields) "choices" = false := by
      simpa using hnc
    show (if hasKey (Json.obj fields) "choices" then _ else topChain (Json.obj fields)) = _
    rw [hnb]
    simp only [if_neg Bool.false_ne_true, Bool.false_eq_true, if_false]
    rw [topChain, topFour]
    have ht : ∀ k, topField (Json.obj fields) k = nonNull (getKey (Json.obj fields) k) := by
      intro k
      rw [topField]
      rcases getKey (Json.obj fields) k with _ | v
      · rfl
      · cases v <;> rfl
    rw [ht "text", ht "content", ht "completion", ht "response"]
    rcases nonNull (getKey (Json.obj fields) "text") with _ | v
    · rcases nonNull (getKey (Json.obj fields) "content") with _ | v
      · rcases nonNull (getKey (Json.obj fields) "completion") with _ | v
        · rcases nonNull (getKey (Json.obj fields) "response") with _ | v
          · rfl
          · cases v <;> rfl
        · cases v <;> rfl
      · cases v <;> rfl
    · cases v <;> rfl
  · have hk : hasKey (Json.obj fields) "choices" = true := by
      rw [hasKey, hv]; rfl
    show (if hasKey (Json.obj fields) "choices" then
        choicesExtract ((getKey (Json.obj fields) "choices").getD (.arr [])) else _) = _
    rw [hk, hv]
    simp
  · have hk : hasKey (Json.obj cfs) "delta" = true := by
      rw [hasKey, hd]; rfl
    show (if hasKey (Json.obj cfs) "delta" then
        fieldContent ((getKey (Json.obj cfs) "delta").getD (.obj [])) else _) = _
    rw [hk, hd]
    simp only [Option.getD_some, if_true]
    rw [fieldContent]
    rcases hgc : getKey (Json.obj dfs) "content" with _ | v
    · rfl
    · rw [hgc] at hc
      cases v <;> simp_all [nonNull]

/-- Witness for the amended C3 at a concrete object: `choices` absent, a
null `text` falling through to `content`. -/
theorem C3_extract_amended_witness :
    extractContent (Json.obj [("text", Json.null), ("content", Json.str "C")]) =
      selOut (topFour (Json.obj [("text", Json.null), ("content", Json.str "C")])) :=
  (C3_extract_amended [("text", Json.null), ("content", Json.str "C")] [] []).1
    (by decide)

/-! ### Stream watchdog (claim C4)

`_stream_watchdog` wakes once a second on its own thread; a wake-up
compares the elapsed time since the last chunk against the 15-second
threshold and, when it fires, schedules `_handle_hang` on the UI thread.
One wake-up together with its scheduled `_handle_hang` is modelled as a
single step on the control state.  (`_handle_hang` also appends the reply
to the conversation history and saves the session; the claim concerns the
reply, completion and cancellation fields modelled here.)  Timestamps are
modelled as rationals (seconds). -/

/-- Control state shared between the stream worker and the watchdog:
`self.reply`, `self.response_complete`, `self.stopping`,
`self.response_watchdog_active`, `self.last_update_time`. -/
structure WState where
  reply : String
  responseComplete : Bool
  stopping : Bool
  watchdogActive : Bool
  lastUpdate : ℚ
deriving DecidableEq, Repr

/-- The truncation notice `_handle_hang` appends. -/
def hangNotice : String := "\n\n[Response incomplete - stream timed out]"

/-- Models `_handle_hang`: unless completion has been signalled in the meantime,
append the truncation notice, mark completion and set the cancellation
flag. -/
def handleHang (st : WState) : WState :=
  if !st.responseComplete then
    { st with reply := st.reply ++ hangNotice, responseComplete := true, stopping := true }
  else st

/-- One watchdog wake-up at time `now`: if the watchdog is still active,
more than 15 seconds have elapsed since the last chunk and completion has
not been signalled, the watchdog deactivates itself and — only when the
accumulated reply is non-empty (`if self.reply:`) — runs `_handle_hang`. -/
def watchdogTick (st : WState) (now : ℚ) : WState :=
  if st.watchdogActive then
    if now - st.lastUpdate > 15 ∧ st.responseComplete = false then
      (if st.reply ≠ "" then handleHang { st with watchdogActive := false }
       else { st with watchdogActive := false })
    else st
  else st

/-- A stalled stream with an empty accumulated reply. -/
def c4St : WState :=
  { reply := "", responseComplete := false, stopping := false,
    watchdogActive := true, lastUpdate := 0 }

/-- Counterexample to claim C4 as stated: with an empty accumulated reply
the firing watchdog only deactivates itself — it appends no truncation
notice, does not mark completion and does not set the cancellation flag,
though 16 seconds have elapsed without completion. -/
theorem C4_watchdog_counterexample :
    (watchdogTick c4St 16).reply = "" ∧
    (watchdogTick c4St 16).responseComplete = false ∧
    (watchdogTick c4St 16).stopping = false ∧
    (watchdogTick c4St 16).watchdogActive = false := by
  have h : watchdogTick c4St 16 = { c4St with watchdogActive := false } := by
    rw [watchdogTick, if_pos (show c4St.watchdogActive = true from rfl),
      if_pos ⟨by norm_num [c4St], rfl⟩, if_neg (by simp [c4St])]
  exact ⟨by rw [h]; rfl, by rw [h]; rfl, by rw [h]; rfl, by rw [h]⟩

/-- Claim C4 amended: whenever more than 15 seconds elapse with no new
chunk, completion has not been signalled and the accumulated reply is
NON-EMPTY, the watchdog finalizes the stream — it appends the truncation
notice to the reply exactly once, marks completion, sets the cancellation
flag and deactivates itself; a second wake-up changes nothing (the notice
is appended exactly once).  With an empty reply it only deactivates
itself. -/
theorem C4_watchdog_amended (st : WState) (now later : ℚ)
    (hact : st.watchdogActive = true)
    (helapsed : now - st.lastUpdate > 15)
    (hnc : st.responseComplete = false)
    (hne : st.reply ≠ "") :
    watchdogTick st now =
      { st with reply := st.reply ++ hangNotice, responseComplete := true,
                stopping := true, watchdogActive := false } ∧
    watchdogTick (watchdogTick st now) later = watchdogTick st now := by
  have h1 : watchdogTick st now =
      { st with reply := st.reply ++ hangNotice, responseComplete := true,
                stopping := true, watchdogActive := false } := by
    rw [watchdogTick, if_pos hact, if_pos ⟨helapsed, hnc⟩, if_pos hne,
      handleHang]
    have : ({ st with watchdogActive := false } : WState).responseComplete = false := hnc
    rw [this]
    rfl
  refine ⟨h1, ?_⟩
  rw [h1, watchdogTick]
  simp

/-- Witness for the amended C4 at a concrete stalled state. -/
theorem C4_watchdog_amended_witness :
    watchdogTick { c4St with reply := "partial text" } 16 =
      { c4St with reply := "partial text" ++ hangNotice, responseComplete := true,
                  stopping := true, watchdogActive := false } :=
  (C4_watchdog_amended { c4St with reply := "partial text" } 16 20 rfl
    (by norm_num [c4St]) rfl (by decide)).1

/-! ### Retry-wrapped request dispatcher (claim C2)

`_send_message_thread` runs `for attempt in range(max_retries)`, attempting
the streaming or non-streaming send; the `except` clause catches
`urllib.error.URLError`, `socket.error` and `urllib.error.HTTPError` (the
exception `urlopen` raises for a non-2xx HTTP response received after a
successful connection).  A caught failure before the last attempt sleeps
`(attempt + 1) * 2` seconds and retries; on the last attempt it appends a
terminal error message and returns. -/

/-- Outcome of one attempt of the request body. -/
inductive Attempt where
  | ok
  | urlError
  | sockError
  | httpError
  | otherExc
deriving DecidableEq, Repr

/-- Membership in the `except (urllib.error.URLError, socket.error,
urllib.error.HTTPError)` tuple. -/
def caught : Attempt → Bool
  | .urlError => true
  | .sockError => true
  | .httpError => true
  | _ => false

/-- How the dispatcher ends. -/
inductive DispatchEnd where
  | success
  | terminalError
  | raised
  | noAttempt
deriving DecidableEq, Repr

/-- The retry loop from attempt index `i` with the given number of
remaining attempts: returns the back-off waits performed (in seconds, in
order) and the final outcome.  `noAttempt` is the degenerate
`max_retries = 0` case where the loop body never runs. -/
def dispatchFrom (outcomes : Nat → Attempt) (i : Nat) : Nat → List Nat × DispatchEnd
  | 0 => ([], .noAttempt)
  | n + 1 =>
    match outcomes i with
    | .ok => ([], .success)
    | e =>
      if caught e then
        if n = 0 then ([], .terminalError)
        else
          let rest := dispatchFrom outcomes (i + 1) n
          ((i + 1) * 2 :: rest.1, rest.2)
      else ([], .raised)

/-- Models `_send_message_thread(request, stream, max_retries)`, abstracted over
the per-attempt outcomes. -/
def sendMessageThread (outcomes : Nat → Attempt) (maxRetries : Nat) :
    List Nat × DispatchEnd :=
  dispatchFrom outcomes 0 maxRetries

/-- Counterexample to claim C2 as stated: `HTTPError` — an
application-level HTTP error payload received after a successful
connection — is in the dispatcher's `except` tuple, so such failures ARE
retried: with every attempt raising `HTTPError`, the dispatcher performs
the back-off waits `[2, 4]` rather than none. -/
theorem C2_retry_counterexample :
    sendMessageThread (fun _ => Attempt.httpError) 3 =
      ([2, 4], DispatchEnd.terminalError) ∧
    ([2, 4] : List Nat) ≠ [] :=
  ⟨rfl, by decide⟩

/-- Claim C2 amended: with the default retry count 3 the dispatcher
retries on `URLError`, `socket.error` AND `HTTPError` (application-level
HTTP error responses included); any other exception propagates at once
with no retry; before retry attempt `n` (1-based) it waits `n * 2`
seconds; and after exhausting all attempts on caught exceptions it reports
a terminal error message instead of raising. -/
theorem C2_retry_amended (outcomes : Nat → Attempt) :
    sendMessageThread outcomes 3 =
      if outcomes 0 = .ok then ([], .success)
      else if caught (outcomes 0) = false then ([], .raised)
      else if outcomes 1 = .ok then ([2], .success)
      else if caught (outcomes 1) = false then ([2], .raised)
      else if outcomes 2 = .ok then ([2, 4], .success)
      else if caught (outcomes 2) = false then ([2, 4], .raised)
      else ([2, 4], .terminalError) := by
  cases h0 : outcomes 0 <;> cases h1 : outcomes 1 <;> cases h2 : outcomes 2 <;>
    simp [sendMessageThread, dispatchFrom, caught, h0, h1, h2]

/-! ### Tool-call key/value parser (claim C6)

`_parse_kv_format` walks the lines of a `<toolfunction_call>` block,
collecting `key: value` pairs, with multi-line values wrapped between a
`<<<||` line and a `||>>>` line. -/

/-- Models `line.split(':', 1)`: split at the first colon, when there is one. -/
def breakColon : List Char → Option (List Char × List Char)
  | [] => none
  | c :: r =>
    if c = ':' then some ([], r)
    else (breakColon r).map fun p => (c :: p.1, p.2)

/-- Python dict assignment `args[k] = v`: overwrite in place or append. -/
def kvSet (args : List (String × String)) (k v : String) : List (String × String) :=
  if args.any (·.1 = k) then args.map fun p => if p.1 = k then (k, v) else p
  else args ++ [(k, v)]

/-- Models `while multiline_content and not multiline_content[0]: pop(0)` and the
mirror loop at the back: drop ALL leading and trailing empty lines. -/
def dropBlankEnds (ls : List String) : List String :=
  ((ls.dropWhile (· = "")).reverse.dropWhile (· = "")).reverse

/-- Parser state of `_parse_kv_format`: the result under construction plus
`current_key`, `multiline_content` and `in_multiline`. -/
structure KVState where
  command : Option String
  args : List (String × String)
  currentKey : Option String
  multiline : List String
  inMultiline : Bool
deriving DecidableEq, Repr

/-- One loop iteration of `_parse_kv_format` over one line. -/
def kvStep (st : KVState) (line : String) : KVState :=
  if line = "" then
    (if st.inMultiline then { st with multiline := st.multiline ++ [""] } else st)
  else if line = "<<<||" then
    { st with inMultiline := true, multiline := [] }
  else if line = "||>>>" then
    let st' :=
      match st.currentKey with
      | some k =>
        if k ≠ "" ∧ st.inMultiline then
          let content := joinNL (dropBlankEnds st.multiline)
          if k = "@command" then { st with command := some content }
          else { st with args := kvSet st.args k content }
        else st
      | none => st
    { st' with inMultiline := false, currentKey := none }
  else if st.inMultiline then
    { st with multiline := st.multiline ++ [line] }
  else
    match breakColon line.data with
    | none => st
    | some (kcs, vcs) =>
      let key := pyStrip ⟨kcs⟩
      let value := pyStrip ⟨vcs⟩
      if key = "@command" then { st with command := some value }
      else if value = "<<<||" then
        { st with currentKey := some key, inMultiline := true, multiline := [] }
      else { st with args := kvSet st.args key value }

/-- Initial parser state (`result = {'args': {}}` etc.). -/
def kvInit : KVState :=
  { command := none, args := [], currentKey := none, multiline := [], inMultiline := false }

/-- Models `_parse_kv_format` over an explicit line list. -/
def parseKVLines (lines : List String) : KVState :=
  lines.foldl kvStep kvInit

/-- Models `text.split('\n')`. -/
def splitNLChars : List Char → List (List Char)
  | [] => [[]]
  | '\n' :: r => [] :: splitNLChars r
  | c :: r =>
    match splitNLChars r with
    | [] => [[c]]
    | l :: ls => (c :: l) :: ls

/-- Models `_parse_kv_format(text)`. -/
def parseKV (text : String) : KVState :=
  parseKVLines ((splitNLChars text.data).map fun l => (⟨l⟩ : String))

/-- A canonical tool-call block with one multi-line argument `k`. -/
def mkBlockLines (body : List String) : List String :=
  ["@command: c", "k: <<<||"] ++ body ++ ["||>>>"]

/-- Modelled from the claim's words: strip EXACTLY ONE leading and one
trailing blank line when present. -/
def dropOneBlankEnds (ls : List String) : List String :=
  let l1 := match ls with | "" :: t => t | _ => ls
  match l1.reverse with | "" :: t => t.reverse | _ => l1

/-- Counterexample to claim C6 as stated: a multi-line value opening with
two blank lines loses BOTH of them — the stripping loops pop every leading
and trailing empty line, not exactly one, so the claimed result `"\nA"`
differs from the parsed value `"A"`. -/
theorem C6_multiline_counterexample :
    (parseKV "@command: c\nk: <<<||\n\n\nA\n||>>>").args = [("k", "A")] ∧
    joinNL (dropOneBlankEnds ["", "", "A"]) = "\nA" ∧
    ("A" : String) ≠ "\nA" :=
  ⟨rfl, rfl, by decide⟩

/-- In multi-line mode every line that is not one of the two delimiters is
collected verbatim (an empty line is collected as `''`). -/
theorem kvStep_collect (body : List String) (st : KVState)
    (hml : st.inMultiline = true)
    (hb : ∀ l ∈ body, l ≠ "<<<||" ∧ l ≠ "||>>>") :
    List.foldl kvStep st body = { st with multiline := st.multiline ++ body } := by
  induction body generalizing st with
  | nil => simp
  | cons l ls ih =>
    have hl := hb l (List.mem_cons_self l ls)
    have hb' : ∀ l' ∈ ls, l' ≠ "<<<||" ∧ l' ≠ "||>>>" :=
      fun l' hm => hb l' (List.mem_cons_of_mem _ hm)
    by_cases he : l = ""
    · subst he
      rw [List.foldl_cons]
      have hstep : kvStep st "" = { st with multiline := st.multiline ++ [""] } := by
        rw [kvStep]
        simp [hml]
      rw [hstep, ih _ (by simp [hml]) hb']
      simp
    · rw [List.foldl_cons]
      have hstep : kvStep st l = { st with multiline := st.multiline ++ [l] } := by
        rw [kvStep, if_neg he, if_neg hl.1, if_neg hl.2]
        simp [hml]
      rw [hstep, ih _ (by simp [hml]) hb']
      simp

/-- Claim C6 amended: a multi-line argument value preserves all internal
newlines verbatim, but strips ALL leading and ALL trailing blank lines —
not exactly one: the parsed value of the block is the interior lines
joined by newlines after dropping every empty line at either end. -/
theorem C6_multiline_amended (body : List String)
    (hb : ∀ l ∈ body, l ≠ "<<<||" ∧ l ≠ "||>>>") :
    (parseKVLines (mkBlockLines body)).command = some "c" ∧
    (parseKVLines (mkBlockLines body)).args = [("k", joinNL (dropBlankEnds body))] := by
  have hpre : parseKVLines (mkBlockLines body) =
      List.foldl kvStep
        { command := some "c", args := [], currentKey := some "k",
          multiline := [], inMultiline := true } (body ++ ["||>>>"]) := rfl
  rw [hpre, List.foldl_append, kvStep_collect body _ rfl hb]
  constructor <;> rfl

/-- Witness for the amended C6 on a concrete body with blank lines at both
ends and in the middle. -/
theorem C6_multiline_amended_witness :
    (parseKVLines (mkBlockLines ["", "", "a", "", "b", ""])).command = some "c" ∧
    (parseKVLines (mkBlockLines ["", "", "a", "", "b", ""])).args =
      [("k", joinNL (dropBlankEnds ["", "", "a", "", "b", ""]))] :=
  C6_multiline_amended ["", "", "a", "", "b", ""] (by decide)

/-! ### Conversation messages and session persistence (claim C7) -/

/-- A history entry `{'role': ..., 'content': ..., 'id'?: ..., 'label'?: ...}`:
`id` and `label` are optional keys (messages appended directly, such as the
assistant reply at stream finalization, carry neither). -/
structure Msg where
  role : String
  content : String
  id : Option Nat
  label : Option String
deriving DecidableEq, Repr

/-- The JSON object a history entry serializes to. -/
def encodeMsg (m : Msg) : Json :=
  Json.obj ([("role", .str m.role), ("content", .str m.content)]
    ++ (match m.id with | some i => [("id", Json.num (i : Int))] | none => [])
    ++ (match m.label with | some l => [("label", Json.str l)] | none => []))

/-- Read a history entry back from its JSON object. -/
def decodeMsg (j : Json) : Option Msg :=
  match getKey j "role", getKey j "content" with
  | some (.str r), some (.str c) =>
    some { role := r, content := c,
           id := match getKey j "id" with
                 | some (.num (Int.ofNat i)) => some i
                 | _ => none,
           label := match getKey j "label" with
                    | some (.str l) => some l
                    | _ => none }
  | _, _ => none

/-- Serialization round-trip for a single message. -/
theorem decodeMsg_encodeMsg (m : Msg) : decodeMsg (encodeMsg m) = some m := by
  rcases m with ⟨r, c, id, lb⟩
  cases id <;> cases lb <;> rfl

/-- The sessions directory, as a mapping from file name to the stored JSON
document.  `json.dump`/`json.load` with `ensure_ascii=False` are mutually
inverse on these documents, so the file contents are modelled by the
document value; a new write shadows an older file with the same name. -/
abbrev SessionStore := List (String × Json)

/-- Models `'{}.session.json'.format(session_id)`. -/
def sessionFileName (sessionId : String) : String := sessionId ++ ".session.json"

/-- The `data` dict assembled by `save_current_session` /
`auto_save_session` and read with `data.get(...)` inside `save_session`. -/
structure SessionData where
  createdAt : Option String
  activeModel : Json
  history : List Msg
  addedFiles : Json
  metadata : Json

/-- Models `SessionManager.save_session`: write the session document.  `now` is
`datetime.now().isoformat()`. -/
def saveSession (store : SessionStore) (sessionId : String) (data : SessionData)
    (now : String) : SessionStore :=
  (sessionFileName sessionId,
    Json.obj [("id", .str sessionId),
              ("created_at", .str (data.createdAt.getD now)),
              ("updated_at", .str now),
              ("active_model", data.activeModel),
              ("history", .arr (data.history.map encodeMsg)),
              ("added_files", data.addedFiles),
              ("metadata", data.metadata)]) :: store

/-- Models `SessionManager.load_session`: the stored document, or `None` when no
such file exists. -/
def loadSession (store : SessionStore) (sessionId : String) : Option Json :=
  store.lookup (sessionFileName sessionId)

/-- Claim C7: saving a session and loading it back by the same id returns
a record whose `history` field is the same ordered message sequence, and
decoding each stored object recovers the original message exactly — role,
content, id (and label) equal, content strings byte-identical. -/
theorem C7_session_roundtrip (store : SessionStore) (sessionId : String)
    (data : SessionData) (now : String) :
    (∃ doc, loadSession (saveSession store sessionId data now) sessionId = some doc ∧
        getKey doc "history" = some (.arr (data.history.map encodeMsg))) ∧
    (data.history.map encodeMsg).map decodeMsg = data.history.map some := by
  constructor
  · refine ⟨Json.obj [("id", .str sessionId),
        ("created_at", .str (data.createdAt.getD now)),
        ("updated_at", .str now),
        ("active_model", data.activeModel),
        ("history", .arr (data.history.map encodeMsg)),
        ("added_files", data.addedFiles),
        ("metadata", data.metadata)], ?_, rfl⟩
    rw [loadSession, saveSession]
    simp [List.lookup]
  · rw [List.map_map]
    have : decodeMsg ∘ encodeMsg = some := funext decodeMsg_encodeMsg
    rw [this]

/-! ### Conversation-history operations and invariants (claim C8)

`self.labels` is a Python dict from label name to message id; it is
modelled as a finite map `String → Option Nat` (the program never iterates
over it, only assigns and looks up). -/

/-- Label map. -/
abbrev Labels := String → Option Nat

/-- Models `self.labels[label] = id`. -/
def labelSet (f : Labels) (k : String) (v : Nat) : Labels :=
  fun x => if x = k then some v else f x

/-- Controller history state: `self.history`, `self.message_id`,
`self.labels`. -/
structure Hist where
  history : List Msg
  messageId : Nat
  labels : Labels

/-- Models `if label:` — Python truthiness treats an empty string like `None`. -/
def normLabel : Option String → Option String
  | some l => if l = "" then none else some l
  | none => none

/-- Models `reset_history`: fresh history holding only the system message, with
the id counter and label map cleared; `try_load_knowledge_base` may insert
an assistant knowledge message at index 1. -/
def resetHistory (sysMsg : String) (kb : Option String) : Hist :=
  { history :=
      match kb with
      | some k =>
        [{ role := "system", content := sysMsg, id := none, label := none },
         { role := "assistant", content := k, id := none, label := none }]
      | none => [{ role := "system", content := sysMsg, id := none, label := none }],
    messageId := 0,
    labels := fun _ => none }

/-- Models `add_message_to_history`: increment the id counter, append the message
carrying the new id, and (for a truthy label) record the label. -/
def addMessage (h : Hist) (role content : String) (label : Option String) : Hist :=
  let mid := h.messageId + 1
  match normLabel label with
  | some l =>
    { history := h.history ++
        [{ role := role, content := content, id := some mid, label := some l }],
      messageId := mid,
      labels := labelSet h.labels l mid }
  | none =>
    { history := h.history ++
        [{ role := role, content := content, id := some mid, label := none }],
      messageId := mid,
      labels := h.labels }

/-- A direct `self.history.append({'role': ..., 'content': ...})` — the
assistant-reply append at stream finalization, the function-result and
file-reference appends: no id, no label, counter untouched. -/
def appendRaw (h : Hist) (role content : String) : Hist :=
  { h with history := h.history ++
      [{ role := role, content := content, id := none, label := none }] }

/-- A message-appending operation on the history. -/
inductive HOp where
  | add (role content : String) (label : Option String)
  | raw (role content : String)

/-- Apply one operation. -/
def applyOp (h : Hist) : HOp → Hist
  | .add r c l => addMessage h r c l
  | .raw r c => appendRaw h r c

/-- Apply a sequence of operations in order. -/
def applyOps (h : Hist) (ops : List HOp) : Hist := ops.foldl applyOp h

/-- The ids carried by the history, in order. -/
def idsOf (h : Hist) : List Nat := h.history.filterMap (·.id)

/-- Modelled from the claim: the id assigned by the LAST operation that
writes the label, scanning the operations while tracking the id counter
(`mid` is the counter value before the remaining operations run). -/
def lastLabelWrite (mid : Nat) (ops : List HOp) (lb : String) : Option Nat :=
  match ops with
  | [] => none
  | .add _ _ l :: rest =>
    (match lastLabelWrite (mid + 1) rest lb with
     | some v => some v
     | none => if normLabel l = some lb then some (mid + 1) else none)
  | .raw _ _ :: rest => lastLabelWrite mid rest lb

/-- The invariant preserved by every append operation. -/
def histInv (h : Hist) : Prop :=
  (h.history.head?.map (·.role) = some "system") ∧
  (idsOf h).Pairwise (· < ·) ∧
  (∀ i ∈ idsOf h, i ≤ h.messageId)

theorem head?_append_of_some {l l' : List Msg} {a : Msg}
    (h : l.head? = some a) : (l ++ l').head? = some a := by
  cases l with
  | nil => simp at h
  | cons x t => simpa using h

theorem head?_map_role_append {l : List Msg} (m : Msg)
    (h : l.head?.map (·.role) = some "system") :
    (l ++ [m]).head?.map (·.role) = some "system" := by
  cases l with
  | nil => simp at h
  | cons x t => simpa using h

theorem histInv_single {h : Hist} (hi : histInv h) (m : Msg) (hist2 : Hist)
    (hh : hist2.history = h.history ++ [m])
    (hcase : m.id = none ∧ hist2.messageId = h.messageId ∨
      m.id = some (h.messageId + 1) ∧ hist2.messageId = h.messageId + 1) :
    histInv hist2 := by
  obtain ⟨hhead, hpw, hle⟩ := hi
  obtain ⟨hid, hmid⟩ | ⟨hid, hmid⟩ := hcase
  · refine ⟨?_, ?_, ?_⟩
    · rw [hh]; exact head?_map_role_append m hhead
    · rw [idsOf, hh, List.filterMap_append]
      simp only [List.filterMap_cons, hid, List.filterMap_nil, List.append_nil]
      exact hpw
    · intro i hmem
      rw [idsOf, hh, List.filterMap_append] at hmem
      simp only [List.filterMap_cons, hid, List.filterMap_nil, List.append_nil] at hmem
      rw [hmid]
      exact hle i hmem
  · refine ⟨?_, ?_, ?_⟩
    · rw [hh]; exact head?_map_role_append m hhead
    · rw [idsOf, hh, List.filterMap_append]
      simp only [List.filterMap_cons, hid, List.filterMap_nil]
      rw [List.pairwise_append]
      refine ⟨hpw, by simp, ?_⟩
      intro a ha b hb
      simp only [List.mem_cons, List.not_mem_nil, or_false] at hb
      subst hb
      exact Nat.lt_succ_of_le (hle a ha)
    · intro i hmem
      rw [idsOf, hh, List.filterMap_append] at hmem
      simp only [List.filterMap_cons, hid, List.filterMap_nil, List.mem_append,
        List.mem_cons, List.not_mem_nil, or_false] at hmem
      rw [hmid]
      rcases hmem with hmem | hmem
      · exact Nat.le_succ_of_le (hle i hmem)
      · omega

theorem histInv_applyOp {h : Hist} (hi : histInv h) (op : HOp) :
    histInv (applyOp h op) := by
  cases op with
  | add r c l =>
    show histInv (addMessage h r c l)
    rw [addMessage]
    cases hn : normLabel l with
    | some lb => exact histInv_single hi _ _ rfl (Or.inr ⟨rfl, rfl⟩)
    | none => exact histInv_single hi _ _ rfl (Or.inr ⟨rfl, rfl⟩)
  | raw r c =>
    exact histInv_single hi _ _ rfl (Or.inl ⟨rfl, rfl⟩)

theorem histInv_applyOps {h : Hist} (hi : histInv h) (ops : List HOp) :
    histInv (applyOps h ops) := by
  induction ops generalizing h with
  | nil => exact hi
  | cons op rest ih => exact ih (histInv_applyOp hi op)

theorem histInv_reset (sysMsg : String) (kb : Option String) :
    histInv (resetHistory sysMsg kb) := by
  cases kb <;> exact ⟨rfl, by simp [idsOf, resetHistory], by simp [idsOf, resetHistory]⟩

/-- The label map after a run of operations: the last write wins. -/
theorem labels_applyOps (ops : List HOp) (h : Hist) (lb : String) :
    (applyOps h ops).labels lb =
      match lastLabelWrite h.messageId ops lb with
      | some v => some v
      | none => h.labels lb := by
  induction ops generalizing h with
  | nil => rfl
  | cons op rest ih =>
    cases op with
    | raw r c =>
      have h1 : applyOps h (.raw r c :: rest) = applyOps (appendRaw h r c) rest := rfl
      rw [h1, ih]
      rfl
    | add r c l =>
      have h1 : applyOps h (.add r c l :: rest) = applyOps (addMessage h r c l) rest := rfl
      rw [h1, ih]
      cases hn : normLabel l with
      | some lb' =>
        have hmid : (addMessage h r c l).messageId = h.messageId + 1 := by
          rw [addMessage, hn]
        have hlab : (addMessage h r c l).labels
            = labelSet h.labels lb' (h.messageId + 1) := by
          rw [addMessage, hn]
        rw [hmid, hlab, lastLabelWrite, hn]
        cases lastLabelWrite (h.messageId + 1) rest lb with
        | some v => rfl
        | none =>
          simp only [labelSet]
          by_cases hx : lb = lb'
          · subst hx; simp
          · rw [if_neg hx, if_neg (by simpa using fun h' => hx h'.symm)]
      | none =>
        have hmid : (addMessage h r c l).messageId = h.messageId + 1 := by
          rw [addMessage, hn]
        have hlab : (addMessage h r c l).labels = h.labels := by
          rw [addMessage, hn]
        rw [hmid, hlab, lastLabelWrite, hn]
        cases lastLabelWrite (h.messageId + 1) rest lb <;> simp

/-- Claim C8: in every history reachable by a reset followed by any
sequence of message-appending operations (including the id-less direct
appends performed at stream finalization), the first entry is a system
message, the ids carried by messages are pairwise strictly increasing in
append order (hence unique), and the label map sends each label to the id
assigned by the last operation that wrote it. -/
theorem C8_history_invariants (sysMsg : String) (kb : Option String)
    (ops : List HOp) :
    ((applyOps (resetHistory sysMsg kb) ops).history.head?.map (·.role)
        = some "system") ∧
    (idsOf (applyOps (resetHistory sysMsg kb) ops)).Pairwise (· < ·) ∧
    (∀ lb, (applyOps (resetHistory sysMsg kb) ops).labels lb
        = lastLabelWrite 0 ops lb) := by
  obtain ⟨h1, h2, _⟩ := histInv_applyOps (histInv_reset sysMsg kb) ops
  refine ⟨h1, h2, fun lb => ?_⟩
  rw [labels_applyOps]
  have : (resetHistory sysMsg kb).messageId = 0 := by cases kb <;> rfl
  rw [this]
  cases lastLabelWrite 0 ops lb with
  | some v => rfl
  | none => cases kb <;> rfl

/-! ### Rewind (claim C10) -/

/-- Value of a nonempty all-digit character run. -/
def digitsToNat (ds : List Char) : Option Nat :=
  if ds ≠ [] ∧ ds.all (·.isDigit) then
    some (ds.foldl (fun acc c => acc * 10 + (c.toNat - 48)) 0)
  else none

/-- Models `int(target)`: optional surrounding whitespace, optional sign, decimal
digits; `none` models the raised `ValueError`. -/
def pyInt (s : String) : Option Int :=
  match (pyStrip s).data with
  | '-' :: ds => (digitsToNat ds).map fun n => -(n : Int)
  | '+' :: ds => (digitsToNat ds).map fun n => (n : Int)
  | ds => (digitsToNat ds).map fun n => (n : Int)

/-- Target resolution in `rewind_to`: a label wins over a numeric id. -/
def resolveTarget (h : Hist) (target : String) : Option Int :=
  match h.labels target with
  | some i => some (i : Int)
  | none => pyInt target

/-- Models `msg.get('id') == target_id` (an absent id compares unequal). -/
def idMatches (t : Int) (m : Msg) : Bool :=
  match m.id with
  | some i => (i : Int) == t
  | none => false

/-- The `for msg in self.history: new_history.append(msg); if ... break`
loop: the prefix up to and including the first matching message, `none`
when no message carries the id. -/
def takeThroughId (msgs : List Msg) (t : Int) : Option (List Msg) :=
  match msgs with
  | [] => none
  | m :: rest =>
    if idMatches t m then some [m]
    else (takeThroughId rest t).map (m :: ·)

/-- Rebuild the label map from the retained messages (`if 'label' in msg:
labels[msg['label']] = msg['id']`).  A labelled message always carries an
id — `add_message_to_history` sets both together — so the `msg['id']`
lookup is total on program-built histories; label-less messages are
skipped. -/
def rebuildLabels (msgs : List Msg) : Labels :=
  msgs.foldl
    (fun acc m =>
      match m.label, m.id with
      | some l, some i => labelSet acc l i
      | _, _ => acc)
    (fun _ => none)

/-- Models `rewind_to`: resolve the target (label map first, then `int(target)`);
truncate the history at the first message carrying the resolved id and
rebuild the label map from the retained messages; when the target resolves
to no present id (or to nothing at all), leave everything unchanged. -/
def rewindTo (h : Hist) (target : String) : Hist :=
  match resolveTarget h target with
  | none => h
  | some t =>
    match takeThroughId h.history t with
    | some pre =>
      { history := pre, messageId := h.messageId, labels := rebuildLabels pre }
    | none => h

/-- Index of the first message carrying the id (modelled from the claim's
words, for the prefix characterization). -/
def firstIdxMatching (t : Int) : List Msg → Option Nat
  | [] => none
  | m :: rest =>
    if idMatches t m then some 0 else (firstIdxMatching t rest).map (· + 1)

/-- The truncation loop keeps exactly the prefix ending at the first
message carrying the target id. -/
theorem takeThroughId_eq (msgs : List Msg) (t : Int) :
    takeThroughId msgs t =
      (firstIdxMatching t msgs).map fun k => msgs.take (k + 1) := by
  induction msgs with
  | nil => rfl
  | cons m rest ih =>
    rw [takeThroughId, firstIdxMatching]
    by_cases hm : idMatches t m
    · simp [hm]
    · rw [if_neg hm, if_neg hm, ih]
      cases firstIdxMatching t rest <;> simp [List.take]

/-- The rebuilt label map sends each label to the id of the last retained
message carrying it. -/
theorem rebuildLabels_get (msgs : List Msg)
    (hWF : ∀ m ∈ msgs, m.label.isSome = true → m.id.isSome = true)
    (lb : String) :
    rebuildLabels msgs lb =
      (msgs.reverse.find? (fun m => m.label = some lb)).bind (·.id) := by
  induction msgs using List.reverseRecOn with
  | nil => rfl
  | append_singleton msgs m ih =>
    have hW' : ∀ x ∈ msgs, x.label.isSome = true → x.id.isSome = true :=
      fun x hx => hWF x (List.mem_append_left _ hx)
    have hstep : rebuildLabels (msgs ++ [m]) =
        (match m.label, m.id with
         | some l, some i => labelSet (rebuildLabels msgs) l i
         | _, _ => rebuildLabels msgs) := by
      rw [rebuildLabels, rebuildLabels, List.foldl_append]
      rfl
    rw [hstep, List.reverse_append]
    simp only [List.reverse_cons, List.reverse_nil, List.nil_append,
      List.singleton_append]
    cases hl : m.label with
    | none =>
      rw [List.find?_cons_of_neg _ (by simp [hl])]
      exact ih hW'
    | some l =>
      have hid : m.id.isSome = true :=
        hWF m (List.mem_append_right _ (List.mem_singleton_self m)) (by rw [hl]; rfl)
      obtain ⟨i, hi⟩ := Option.isSome_iff_exists.mp hid
      rw [hi]
      by_cases hx : l = lb
      · subst hx
        rw [List.find?_cons_of_pos _ (by simp [hl])]
        simp [labelSet, hi]
      · rw [List.find?_cons_of_neg _ (by simp [hl, hx])]
        show labelSet (rebuildLabels msgs) l i lb = _
        have hls : labelSet (rebuildLabels msgs) l i lb = rebuildLabels msgs lb := by
          simp [labelSet, Ne.symm hx]
        rw [hls]
        exact ih hW'

/-- Claim C10: for every history (whose labelled messages carry ids, as
all program-built histories do) and every rewind target: an unresolvable
target leaves everything unchanged; a target resolving to an id absent
from the history leaves everything unchanged; and a target resolving to a
present id truncates the history to the prefix ending at the first message
carrying that id, keeps the id counter, and rebuilds the label map to
exactly the (label, id) pairs of the retained messages (the last retained
writer of each label winning). -/
theorem C10_rewind (h : Hist) (target : String)
    (hWF : ∀ m ∈ h.history, m.label.isSome = true → m.id.isSome = true) :
    (resolveTarget h target = none → rewindTo h target = h) ∧
    (∀ t, resolveTarget h target = some t →
      (firstIdxMatching t h.history = none → rewindTo h target = h) ∧
      (∀ k, firstIdxMatching t h.history = some k →
        (rewindTo h target).history = h.history.take (k + 1) ∧
        (rewindTo h target).messageId = h.messageId ∧
        (∀ lb, (rewindTo h target).labels lb =
          ((h.history.take (k + 1)).reverse.find?
            (fun m => m.label = some lb)).bind (·.id)))) := by
  refine ⟨fun hres => ?_, fun t hres => ⟨fun hidx => ?_, fun k hidx => ?_⟩⟩
  · rw [rewindTo, hres]
  · have htid : takeThroughId h.history t = none := by
      rw [takeThroughId_eq, hidx]
      rfl
    rw [rewindTo, hres]
    simp only [htid]
  · have htid : takeThroughId h.history t = some (h.history.take (k + 1)) := by
      rw [takeThroughId_eq, hidx, Option.map_some']
    have hre : rewindTo h target =
        { history := h.history.take (k + 1), messageId := h.messageId,
          labels := rebuildLabels (h.history.take (k + 1)) } := by
      rw [rewindTo, hres]
      simp only [htid]
    rw [hre]
    exact ⟨rfl, rfl, fun lb =>
      rebuildLabels_get _ (fun m hm => hWF m (List.take_subset _ _ hm)) lb⟩

/-- A concrete history: system message, a labelled user message (id 1),
an id-less assistant reply, a user message (id 2). -/
def c10Hist : Hist :=
  { history :=
      [{ role := "system", content := "s", id := none, label := none },
       { role := "user", content := "q", id := some 1, label := some "a" },
       { role := "assistant", content := "r", id := none, label := none },
       { role := "user", content := "q2", id := some 2, label := none }],
    messageId := 2,
    labels := fun x => if x = "a" then some 1 else none }

/-- Witness for C10 on a concrete history: rewinding to the label `a`
truncates to the first two messages and rebuilds the labels from them. -/
theorem C10_rewind_witness :
    (rewindTo c10Hist "a").history = c10Hist.history.take 2 ∧
    (rewindTo c10Hist "a").messageId = c10Hist.messageId ∧
    (∀ lb, (rewindTo c10Hist "a").labels lb =
      ((c10Hist.history.take 2).reverse.find?
        (fun m => m.label = some lb)).bind (·.id)) :=
  ((C10_rewind c10Hist "a" (by decide)).2 1 rfl).2 1 rfl

end DeepChat
